import Mathlib

/-!
Verification of `_strlastchar_s_chk` (src/src/extstr/strlastchar_s.c) from the
safeclib bounds-checking string library: a bounded reverse character search
with precondition validation.

The function's own code is embedded below as executable Lean definitions.
The validation macros (`CHK_SRC_NULL`, `CHK_DEST_NULL`, `CHK_DMAX_ZERO`,
`CHK_DMAX_MAX`, `CHK_DEST_OVR`) and the constants `RSIZE_MAX_STR` /
`BOS_UNKNOWN` come from library headers that are not part of the sources
here; those parts are modelled from the specification, as marked on each
definition.
-/

namespace Safeclib

/-- A byte value as stored in a C `char` buffer; the value `0` is the string
terminator. -/
abbrev Byte := Nat

/-- Status codes of the operation.  `EOK`, `ESNOTFND`, `ESNULLP`, `ESZEROL`
and `ESLEMAX` appear literally in strlastchar_s.c (return statements and the
doc comment, lines 60-63).  `EOVERFLOW` is Modelled from the spec: the
distinct `LengthExceedsAllocation` failure produced by the `CHK_DEST_OVR`
macro (not present under src/) when the true allocated size is known and
`dmax` exceeds it. -/
inductive errno_t where
  | EOK
  | ESNOTFND
  | ESNULLP
  | ESZEROL
  | ESLEMAX
  | EOVERFLOW
deriving DecidableEq

/-- Modelled from the spec: the system-wide maximum string-size ceiling
`RSIZE_MAX_STR` (declared in the library headers, which are not under src/);
the library's default value is 4 KiB.  Only the comparison `dmax ≤
RSIZE_MAX_STR` matters to the claims, not the concrete value. -/
def RSIZE_MAX_STR : Nat := 4096

/-- The scan loop of `_strlastchar_s_chk` (strlastchar_s.c lines 86-94):

    while (*dest && dmax) {
        if (*dest == c) { *lastp = dest; }
        dest++;
        dmax--;
    }

`d` is the byte content of the memory `dest` points to; a read past the end
of the list is modelled as returning the terminator value `0`.  `i` is the
current offset of the moving `dest` pointer from the original buffer start,
`b` the remaining `dmax` budget, and `last` the current content of `*lastp`
(`some j` models a pointer to offset `j`, `none` models `NULL`). -/
def scanFrom (d : List Byte) (c : Byte) : Nat → Nat → Option Nat → Option Nat
  | _, 0, last => last
  | i, b + 1, last =>
    if d.getD i 0 = 0 then last
    else scanFrom d c (i + 1) b (if d.getD i 0 = c then some i else last)

/-- The buffer offsets dereferenced by the loop of `_strlastchar_s_chk`
(strlastchar_s.c lines 86-94), in order.  The loop condition
`*dest && dmax` evaluates `*dest` before testing `dmax` (C `&&` is
left-to-right), so a read happens at the current offset on every condition
evaluation, including the final one in which the budget is found to be
exhausted. -/
def scanReads (d : List Byte) : Nat → Nat → List Nat
  | i, 0 => [i]
  | i, b + 1 => if d.getD i 0 = 0 then [i] else i :: scanReads d (i + 1) b

/-- The result phase of `_strlastchar_s_chk` (strlastchar_s.c lines 86-100):
run the scan loop with `*lastp = NULL`, then

    if (*lastp == NULL) { return (ESNOTFND); } else { return (EOK); }

The pair is (returned status, final content of `*lastp`). -/
def scanResult (d : List Byte) (c : Byte) (dmax : Nat) : errno_t × Option Nat :=
  match scanFrom d c 0 dmax none with
  | none => (errno_t.ESNOTFND, none)
  | some j => (errno_t.EOK, some j)

/-- Shallow embedding of `_strlastchar_s_chk` (strlastchar_s.c lines 71-101).

Arguments: `dest = none` models a NULL `dest` pointer, `some d` a valid
buffer with byte content `d`; `dmax` is the declared maximum; `c` the target
character; `lastp_null = true` models a NULL `lastp` argument; `slot0` is
the content of `*lastp` before the call; `destbos = none` models
`BOS_UNKNOWN` (no independently known allocation size) and `some bos` a
known true allocation size of `bos` bytes.  The result is the returned
status paired with the final content of `*lastp` (unchanged `slot0` when
`lastp` is NULL and nothing could be written).

The check sequence follows the source order: `CHK_SRC_NULL` on `lastp`,
then `*lastp = NULL`, then `CHK_DEST_NULL`, `CHK_DMAX_ZERO`, and the size
checks branching on `destbos == BOS_UNKNOWN`.  The macro bodies are
Modelled from the spec (§4.1, steps 1-6): each failed check returns its
status code without touching the buffer; `BND_CHK_PTR_BOUNDS` is
bounds-checking instrumentation that is a no-op in the default build and is
modelled as such. -/
def strlastchar_s (dest : Option (List Byte)) (dmax : Nat) (c : Byte)
    (lastp_null : Bool) (slot0 : Option Nat) (destbos : Option Nat) :
    errno_t × Option Nat :=
  if lastp_null then (errno_t.ESNULLP, slot0)
  else
    match dest with
    | none => (errno_t.ESNULLP, none)
    | some d =>
      if dmax = 0 then (errno_t.ESZEROL, none)
      else
        match destbos with
        | none =>
          if RSIZE_MAX_STR < dmax then (errno_t.ESLEMAX, none)
          else scanResult d c dmax
        | some bos =>
          if bos < dmax then (errno_t.EOVERFLOW, none)
          else scanResult d c dmax

/-- Size validation outcome of `_strlastchar_s_chk` as a single predicate:
`true` exactly when the `destbos`-branching checks of lines 79-84 pass. -/
def sizeOk (dmax : Nat) : Option Nat → Bool
  | none => decide (dmax ≤ RSIZE_MAX_STR)
  | some bos => decide (dmax ≤ bos)

/-- The buffer offsets dereferenced during a whole call of
`_strlastchar_s_chk`: the validation phase reads no buffer byte (all checks
are pointer and size comparisons), so reads happen only when every check
passes and the loop runs. -/
def strlastchar_s_reads (dest : Option (List Byte)) (dmax : Nat)
    (lastp_null : Bool) (destbos : Option Nat) : List Nat :=
  if lastp_null then []
  else
    match dest with
    | none => []
    | some d =>
      if dmax = 0 then []
      else if sizeOk dmax destbos then scanReads d 0 dmax
      else []

/-- The offset at which the scan loop exits when started at offset `i` with
budget `b`: the first offset at or after `i` holding a terminator, capped at
`i + b`. -/
def stopIdx (d : List Byte) : Nat → Nat → Nat
  | i, 0 => i
  | i, b + 1 => if d.getD i 0 = 0 then i else stopIdx d (i + 1) b

/-- The offsets in the scan window `[i, i+b)` that the loop visits before its
exit offset and whose byte equals the target: exactly the offsets at which
the loop records a match. -/
def matchList (d : List Byte) (c : Byte) (i b : Nat) : List Nat :=
  (List.range' i (stopIdx d i b - i)).filter (fun j => d.getD j 0 = c)

/-- Folding down a list of match offsets the way the loop body overwrites
`*lastp`: each later element wins. -/
def lastWins (l : List Nat) (last : Option Nat) : Option Nat :=
  l.foldl (fun _ j => some j) last

/-- Byte content of the C string literal `"banana"`. -/
def banana : List Byte := [98, 97, 110, 97, 110, 97, 0]

/-- Byte content of the C string literal `"aaaaaa"`. -/
def aaaaaa : List Byte := [97, 97, 97, 97, 97, 97, 0]

/-- Byte content of the C buffer `"ab\x00cd"`. -/
def ab0cd : List Byte := [97, 98, 0, 99, 100, 0]

/-- The loop exit offset is at or after the start offset. -/
theorem stopIdx_ge (d : List Byte) : ∀ b i, i ≤ stopIdx d i b
  | 0, _ => Nat.le_refl _
  | b + 1, i => by
    unfold stopIdx
    split
    · exact Nat.le_refl i
    · exact Nat.le_trans (Nat.le_succ i) (stopIdx_ge d b (i + 1))

/-- The loop exit offset never exceeds the budget. -/
theorem stopIdx_le (d : List Byte) : ∀ b i, stopIdx d i b ≤ i + b
  | 0, _ => Nat.le_refl _
  | b + 1, i => by
    unfold stopIdx
    split
    · exact Nat.le_add_right i (b + 1)
    · exact Nat.le_trans (stopIdx_le d b (i + 1)) (by omega)

/-- An offset within budget and preceded (inclusively) only by nonzero bytes
lies strictly before the loop exit offset. -/
theorem lt_stopIdx_of_run (d : List Byte) :
    ∀ b i k, (∀ m, i ≤ m → m ≤ k → d.getD m 0 ≠ 0) → k < i + b →
      k < stopIdx d i b
  | 0, i, k, _, hk => hk
  | b + 1, i, k, hrun, hk => by
    unfold stopIdx
    rcases Nat.lt_or_ge k i with hki | hik
    · split
      · exact hki
      · exact Nat.lt_of_lt_of_le hki (Nat.le_trans (Nat.le_succ i) (stopIdx_ge d b (i + 1)))
    · have hi : d.getD i 0 ≠ 0 := hrun i (Nat.le_refl i) hik
      simp only [hi, if_false]
      exact lt_stopIdx_of_run d b (i + 1) k
        (fun m hm hmk => hrun m (Nat.le_trans (Nat.le_succ i) hm) hmk) (by omega)

/-- Every byte strictly before the loop exit offset is nonzero. -/
theorem ne_zero_of_lt_stopIdx (d : List Byte) :
    ∀ b i k, i ≤ k → k < stopIdx d i b → d.getD k 0 ≠ 0
  | 0, i, k, hik, hk => absurd hk (Nat.not_lt.mpr hik)
  | b + 1, i, k, hik, hk => by
    revert hk
    unfold stopIdx
    split
    · intro hk; exact absurd hk (Nat.not_lt.mpr hik)
    · intro hk
      rcases Nat.eq_or_lt_of_le hik with heq | hlt
      · subst heq; assumption
      · exact ne_zero_of_lt_stopIdx d b (i + 1) k hlt hk

/-- A terminator byte at offset `z` caps the loop exit offset at `z`. -/
theorem stopIdx_le_of_zero (d : List Byte) :
    ∀ b i z, i ≤ z → d.getD z 0 = 0 → stopIdx d i b ≤ z
  | 0, _, _, hiz, _ => hiz
  | b + 1, i, z, hiz, hz => by
    unfold stopIdx
    split
    · exact hiz
    · rename_i hi
      have hne : i ≠ z := fun h => hi (h ▸ hz)
      exact stopIdx_le_of_zero d b (i + 1) z (by omega) hz

/-- The scan loop computes exactly the last-match-wins fold over the match
offsets of its window. -/
theorem scanFrom_eq (d : List Byte) (c : Byte) :
    ∀ b i last, scanFrom d c i b last = lastWins (matchList d c i b) last
  | 0, i, last => by
    simp [scanFrom, matchList, stopIdx, lastWins]
  | b + 1, i, last => by
    have hscan : scanFrom d c i (b + 1) last =
        if d.getD i 0 = 0 then last
        else scanFrom d c (i + 1) b (if d.getD i 0 = c then some i else last) := rfl
    have hstop : stopIdx d i (b + 1) =
        if d.getD i 0 = 0 then i else stopIdx d (i + 1) b := rfl
    rw [hscan]
    by_cases h0 : d.getD i 0 = 0
    · rw [if_pos h0]
      have hz : stopIdx d i (b + 1) = i := by rw [hstop, if_pos h0]
      simp [matchList, hz, lastWins]
    · rw [if_neg h0]
      have hstep : stopIdx d i (b + 1) = stopIdx d (i + 1) b := by
        rw [hstop, if_neg h0]
      have hge : i + 1 ≤ stopIdx d (i + 1) b := stopIdx_ge d b (i + 1)
      have hrange : List.range' i (stopIdx d i (b + 1) - i) =
          i :: List.range' (i + 1) (stopIdx d (i + 1) b - (i + 1)) := by
        rw [hstep]
        have h2 : stopIdx d (i + 1) b - i = (stopIdx d (i + 1) b - (i + 1)) + 1 := by
          omega
        rw [h2, List.range'_succ]
      have hml : matchList d c i (b + 1) =
          if d.getD i 0 = c then i :: matchList d c (i + 1) b
          else matchList d c (i + 1) b := by
        unfold matchList
        rw [hrange, List.filter_cons]
        by_cases hc : d.getD i 0 = c <;> simp [hc, hstep]
      rw [hml]
      by_cases hc : d.getD i 0 = c
      · rw [if_pos hc, if_pos hc, scanFrom_eq d c b (i + 1) (some i)]
        rfl
      · rw [if_neg hc, if_neg hc]
        exact scanFrom_eq d c b (i + 1) last

/-- Every dereferenced offset is at most the loop exit offset. -/
theorem mem_scanReads_le (d : List Byte) :
    ∀ b i r, r ∈ scanReads d i b → r ≤ stopIdx d i b
  | 0, i, r, hr => by
    simp [scanReads] at hr
    simp [stopIdx, hr]
  | b + 1, i, r, hr => by
    revert hr
    unfold scanReads stopIdx
    split
    · intro hr; simp at hr; simp [hr]
    · intro hr
      rcases List.mem_cons.mp hr with hri | hrt
      · subst hri
        exact Nat.le_trans (Nat.le_succ r) (stopIdx_ge d b (r + 1))
      · exact mem_scanReads_le d b (i + 1) r hrt

/-- The loop dereferences at most `b + 1` offsets for budget `b`: at most
`b` full iterations run, plus the final condition evaluation. -/
theorem scanReads_length (d : List Byte) :
    ∀ b i, (scanReads d i b).length ≤ b + 1
  | 0, i => by simp [scanReads]
  | b + 1, i => by
    unfold scanReads
    split
    · simp
    · simpa using Nat.succ_le_succ (scanReads_length d b (i + 1))

/-- Membership in the match-offset list, unfolded. -/
theorem mem_matchList (d : List Byte) (c : Byte) (i b j : Nat) :
    j ∈ matchList d c i b ↔ i ≤ j ∧ j < stopIdx d i b ∧ d.getD j 0 = c := by
  unfold matchList
  rw [List.mem_filter, List.mem_range'_1]
  have := stopIdx_ge d b i
  constructor
  · rintro ⟨⟨h1, h2⟩, h3⟩
    exact ⟨h1, by omega, by simpa using h3⟩
  · rintro ⟨h1, h2, h3⟩
    exact ⟨⟨h1, by omega⟩, by simpa using h3⟩

/-- The match-offset list is strictly increasing. -/
theorem matchList_pairwise (d : List Byte) (c : Byte) (i b : Nat) :
    (matchList d c i b).Pairwise (· < ·) :=
  List.Pairwise.sublist (List.filter_sublist _)
    (List.pairwise_lt_range' i (stopIdx d i b - i))

/-- A last-match-wins fold over a strictly increasing list either leaves the
accumulator alone (empty list) or returns the greatest element. -/
theorem lastWins_spec :
    ∀ (l : List Nat), l.Pairwise (· < ·) → ∀ last : Option Nat,
      (l = [] ∧ lastWins l last = last) ∨
      ∃ m, lastWins l last = some m ∧ m ∈ l ∧ ∀ x ∈ l, x ≤ m
  | [], _, last => Or.inl ⟨rfl, rfl⟩
  | a :: t, h, last => by
    have hstep : lastWins (a :: t) last = lastWins t (some a) := rfl
    rcases List.pairwise_cons.mp h with ⟨ha, ht⟩
    rcases lastWins_spec t ht (some a) with ⟨htnil, heq⟩ | ⟨m, heq, hmem, hmax⟩
    · refine Or.inr ⟨a, ?_, List.mem_cons_self a t, ?_⟩
      · rw [hstep, heq]
      · intro x hx
        rcases List.mem_cons.mp hx with hxa | hxt
        · omega
        · rw [htnil] at hxt; cases hxt
    · refine Or.inr ⟨m, ?_, List.mem_cons_of_mem a hmem, ?_⟩
      · rw [hstep, heq]
      · intro x hx
        rcases List.mem_cons.mp hx with hxa | hxt
        · exact Nat.le_of_lt (hxa ▸ ha m hmem)
        · exact hmax x hxt

/-- With valid pointers, nonzero `dmax` and passing size checks, the call
reduces to the scan phase. -/
theorem strlastchar_s_valid (d : List Byte) (dmax : Nat) (c : Byte)
    (slot0 : Option Nat) (destbos : Option Nat)
    (h0 : dmax ≠ 0) (hsz : sizeOk dmax destbos = true) :
    strlastchar_s (some d) dmax c false slot0 destbos = scanResult d c dmax := by
  unfold strlastchar_s
  cases destbos with
  | none =>
    simp only [sizeOk, decide_eq_true_eq] at hsz
    simp [h0, Nat.not_lt.mpr hsz]
  | some bos =>
    simp only [sizeOk, decide_eq_true_eq] at hsz
    simp [h0, Nat.not_lt.mpr hsz]

/-- The scan phase yields NotFound with a NULL slot when no offset of the
scanned range matches. -/
theorem scanResult_notfound (d : List Byte) (dmax : Nat) (c : Byte)
    (hno : ∀ k, k < dmax → (∀ m, m ≤ k → d.getD m 0 ≠ 0) → d.getD k 0 ≠ c) :
    scanResult d c dmax = (errno_t.ESNOTFND, none) := by
  have hnil : matchList d c 0 dmax = [] := by
    by_contra hne
    obtain ⟨j, hj⟩ := List.exists_mem_of_ne_nil _ hne
    rcases (mem_matchList d c 0 dmax j).mp hj with ⟨_, hj2, hj3⟩
    have hle := stopIdx_le d dmax 0
    have hjd : j < dmax := by omega
    exact hno j hjd
      (fun m hm => ne_zero_of_lt_stopIdx d dmax 0 m (Nat.zero_le m) (by omega)) hj3
  have hscan : scanFrom d c 0 dmax none = none := by
    rw [scanFrom_eq, hnil]; rfl
  unfold scanResult
  rw [hscan]

/-- The scan phase either leaves the slot NULL or reports EOK. -/
theorem scanResult_cases (d : List Byte) (c : Byte) (dmax : Nat) :
    (scanResult d c dmax).2 = none ∨ (scanResult d c dmax).1 = errno_t.EOK := by
  unfold scanResult
  cases scanFrom d c 0 dmax none with
  | none => exact Or.inl rfl
  | some j => exact Or.inr rfl

/-- Claim C1: for a non-null buffer, non-null output slot and a `dmax`
passing the size checks, if the target occurs at some offset `i < dmax`
before the first terminator, then the call returns EOK and the slot holds
the greatest such offset (the rightmost occurrence). -/
theorem strlastchar_s_success_rightmost (d : List Byte) (dmax : Nat) (c : Byte)
    (slot0 : Option Nat) (destbos : Option Nat) (i : Nat)
    (hi : i < dmax) (hrun : ∀ k, k ≤ i → d.getD k 0 ≠ 0) (hc : d.getD i 0 = c)
    (hsz : sizeOk dmax destbos = true) :
    ∃ j, strlastchar_s (some d) dmax c false slot0 destbos = (errno_t.EOK, some j) ∧
      j < dmax ∧ (∀ k, k ≤ j → d.getD k 0 ≠ 0) ∧ d.getD j 0 = c ∧
      ∀ k, k < dmax → (∀ m, m ≤ k → d.getD m 0 ≠ 0) → d.getD k 0 = c → k ≤ j := by
  have h0 : dmax ≠ 0 := by omega
  rw [strlastchar_s_valid d dmax c slot0 destbos h0 hsz]
  have hstople := stopIdx_le d dmax 0
  have hmem : i ∈ matchList d c 0 dmax := by
    rw [mem_matchList]
    exact ⟨Nat.zero_le i,
      lt_stopIdx_of_run d dmax 0 i (fun m _ hmk => hrun m hmk) (by omega), hc⟩
  rcases lastWins_spec (matchList d c 0 dmax) (matchList_pairwise d c 0 dmax) none with
    ⟨hnil, _⟩ | ⟨m, heq, hmm, hmax⟩
  · rw [hnil] at hmem; cases hmem
  · have hscan : scanFrom d c 0 dmax none = some m := by
      rw [scanFrom_eq]; exact heq
    rcases (mem_matchList d c 0 dmax m).mp hmm with ⟨_, hm2, hm3⟩
    refine ⟨m, ?_, by omega, ?_, hm3, ?_⟩
    · unfold scanResult; rw [hscan]
    · intro k hk
      exact ne_zero_of_lt_stopIdx d dmax 0 k (Nat.zero_le k) (by omega)
    · intro k hk hkr hkc
      apply hmax
      rw [mem_matchList]
      exact ⟨Nat.zero_le k,
        lt_stopIdx_of_run d dmax 0 k (fun m' _ hmk => hkr m' hmk) (by omega), hkc⟩

/-- Claim C1, witness: on `"banana"` with `dmax = 6` and target `'a'` (97)
the call returns EOK and the slot holds offset 5, the rightmost match. -/
theorem strlastchar_s_success_rightmost_witness :
    strlastchar_s (some banana) 6 97 false (some 0) none = (errno_t.EOK, some 5) := by
  obtain ⟨j, hj, hjlt, hjr, hjc, hjmax⟩ :=
    strlastchar_s_success_rightmost banana 6 97 (some 0) none 5 (by decide)
      (by decide) (by decide) (by decide)
  have h5 : 5 ≤ j := hjmax 5 (by decide) (by decide) (by decide)
  have hj5 : j = 5 := by omega
  rw [hj5] at hj
  exact hj

/-- Claim C2: contrary to the read-bound claim, the loop condition
`*dest && dmax` dereferences `*dest` before testing the exhausted budget, so
on `"aaaaaa"` with `dmax = 3` the call reads offset 3 (equal to `dmax`): the
read-offset list is `[0, 1, 2, 3]`, refuting that every read offset is
below `dmax`. -/
theorem strlastchar_s_reads_offset_dmax :
    strlastchar_s_reads (some aaaaaa) 3 false none = [0, 1, 2, 3] ∧
    3 ∈ strlastchar_s_reads (some aaaaaa) 3 false none := by
  exact ⟨by decide, by decide⟩

/-- Claim C3: a terminator byte at offset `z` caps every dereferenced
offset at `z` (no byte after it is examined) and every reported match is
strictly before `z`, whatever budget remains; in particular on `"ab\x00cd"`
with `dmax = 5` and target `'c'` (99) the call reports NotFound. -/
theorem strlastchar_s_terminator_hard_stop (d : List Byte) (dmax : Nat) (c : Byte)
    (z : Nat) (hz : d.getD z 0 = 0) :
    (∀ r ∈ scanReads d 0 dmax, r ≤ z) ∧
    (∀ j, scanFrom d c 0 dmax none = some j → j < z) ∧
    strlastchar_s (some ab0cd) 5 99 false (some 7) none = (errno_t.ESNOTFND, none) := by
  have hstop : stopIdx d 0 dmax ≤ z := stopIdx_le_of_zero d dmax 0 z (Nat.zero_le z) hz
  refine ⟨?_, ?_, by decide⟩
  · intro r hr
    exact Nat.le_trans (mem_scanReads_le d dmax 0 r hr) hstop
  · intro j hj
    rw [scanFrom_eq] at hj
    rcases lastWins_spec (matchList d c 0 dmax) (matchList_pairwise d c 0 dmax) none with
      ⟨hnil, heq⟩ | ⟨m, heq, hmm, _⟩
    · rw [heq] at hj; cases hj
    · rw [heq] at hj
      have hmj : m = j := by injection hj
      rcases (mem_matchList d c 0 dmax m).mp hmm with ⟨_, hm2, _⟩
      omega

/-- Claim C3, witness: on `"ab\x00cd"` with `dmax = 5` and target `'c'` the
call reports NotFound with a NULL slot. -/
theorem strlastchar_s_terminator_hard_stop_witness :
    strlastchar_s (some ab0cd) 5 99 false (some 7) none = (errno_t.ESNOTFND, none) :=
  (strlastchar_s_terminator_hard_stop ab0cd 5 99 2 (by decide)).2.2

/-- Claim C4: a valid call whose scanned range (offsets before
`min dmax (first terminator)`) holds no occurrence of the target returns
ESNOTFND and leaves the slot at the NULL sentinel. -/
theorem strlastchar_s_notfound_of_no_match (d : List Byte) (dmax : Nat) (c : Byte)
    (slot0 : Option Nat) (destbos : Option Nat)
    (h0 : dmax ≠ 0) (hsz : sizeOk dmax destbos = true)
    (hno : ∀ k, k < dmax → (∀ m, m ≤ k → d.getD m 0 ≠ 0) → d.getD k 0 ≠ c) :
    strlastchar_s (some d) dmax c false slot0 destbos = (errno_t.ESNOTFND, none) := by
  rw [strlastchar_s_valid d dmax c slot0 destbos h0 hsz]
  exact scanResult_notfound d dmax c hno

/-- Claim C4, witness: `"banana"` holds no `'z'` (122), so the call reports
NotFound with a NULL slot. -/
theorem strlastchar_s_notfound_of_no_match_witness :
    strlastchar_s (some banana) 6 122 false (some 1) none = (errno_t.ESNOTFND, none) :=
  strlastchar_s_notfound_of_no_match banana 6 122 (some 1) none (by decide)
    (by decide) (by decide)

/-- Claim C5: with a non-null output slot, the result never depends on the
slot's previous content, and every exit path leaves the slot at the NULL
sentinel except an EOK exit. -/
theorem strlastchar_s_slot_defined (dest : Option (List Byte)) (dmax : Nat)
    (c : Byte) (slot0 slot0' : Option Nat) (destbos : Option Nat) :
    strlastchar_s dest dmax c false slot0 destbos =
      strlastchar_s dest dmax c false slot0' destbos ∧
    ((strlastchar_s dest dmax c false slot0 destbos).2 = none ∨
      (strlastchar_s dest dmax c false slot0 destbos).1 = errno_t.EOK) := by
  refine ⟨rfl, ?_⟩
  cases dest with
  | none => exact Or.inl rfl
  | some d =>
    by_cases h0 : dmax = 0
    · subst h0; exact Or.inl rfl
    · cases destbos with
      | none =>
        by_cases hmax : RSIZE_MAX_STR < dmax
        · left; simp [strlastchar_s, h0, hmax]
        · have hv : strlastchar_s (some d) dmax c false slot0 none =
              scanResult d c dmax := by
            simp [strlastchar_s, h0, hmax]
          rw [hv]
          exact scanResult_cases d c dmax
      | some bos =>
        by_cases hmax : bos < dmax
        · left; simp [strlastchar_s, h0, hmax]
        · have hv : strlastchar_s (some d) dmax c false slot0 (some bos) =
              scanResult d c dmax := by
            simp [strlastchar_s, h0, hmax]
          rw [hv]
          exact scanResult_cases d c dmax

/-- Claim C6: the checks run in the source order; a null output slot wins
over everything (ESNULLP, buffer untouched), and with a valid slot a null
buffer wins over a zero `dmax` (ESNULLP, not ESZEROL); a zero `dmax` on a
valid buffer gives ESZEROL. -/
theorem strlastchar_s_check_order (dest : Option (List Byte)) (d : List Byte)
    (dmax : Nat) (c : Byte) (slot0 : Option Nat) (destbos : Option Nat) :
    ((strlastchar_s dest dmax c true slot0 destbos).1 = errno_t.ESNULLP ∧
      strlastchar_s_reads dest dmax true destbos = []) ∧
    (strlastchar_s none dmax c false slot0 destbos).1 = errno_t.ESNULLP ∧
    (strlastchar_s none 0 c false slot0 destbos).1 = errno_t.ESNULLP ∧
    (strlastchar_s (some d) 0 c false slot0 destbos).1 = errno_t.ESZEROL :=
  ⟨⟨rfl, rfl⟩, rfl, rfl, rfl⟩

/-- Claim C7: with valid pointers, when no true size is known and `dmax`
exceeds the ceiling the call fails with ESLEMAX, and when a true size `bos`
is known and `dmax` exceeds it the call fails with EOVERFLOW; in both cases
the slot is the NULL sentinel and no buffer byte is read. -/
theorem strlastchar_s_size_checks (d : List Byte) (dmax : Nat) (c : Byte)
    (slot0 : Option Nat) (bos : Nat) :
    (RSIZE_MAX_STR < dmax →
      strlastchar_s (some d) dmax c false slot0 none = (errno_t.ESLEMAX, none) ∧
      strlastchar_s_reads (some d) dmax false none = []) ∧
    (bos < dmax →
      strlastchar_s (some d) dmax c false slot0 (some bos) = (errno_t.EOVERFLOW, none) ∧
      strlastchar_s_reads (some d) dmax false (some bos) = []) := by
  constructor
  · intro h
    have h0 : dmax ≠ 0 := by
      have : (0 : Nat) < RSIZE_MAX_STR := by decide
      omega
    refine ⟨by simp [strlastchar_s, h0, h], ?_⟩
    simp [strlastchar_s_reads, h0, sizeOk, Nat.not_le.mpr h]
  · intro h
    have h0 : dmax ≠ 0 := by omega
    refine ⟨by simp [strlastchar_s, h0, h], ?_⟩
    simp [strlastchar_s_reads, h0, sizeOk, Nat.not_le.mpr h]

/-- Claim C7, witness: with `dmax = 5000` the ceiling check fails
(ESLEMAX), and with a known size of 10 the allocation check fails
(EOVERFLOW). -/
theorem strlastchar_s_size_checks_witness :
    strlastchar_s (some []) 5000 0 false none none = (errno_t.ESLEMAX, none) ∧
    strlastchar_s (some []) 5000 0 false none (some 10) = (errno_t.EOVERFLOW, none) :=
  ⟨((strlastchar_s_size_checks [] 5000 0 none 10).1 (by decide)).1,
   ((strlastchar_s_size_checks [] 5000 0 none 10).2 (by decide)).1⟩

/-- Claim C8: the operation terminates on every input with cost bounded by
the declared maximum: a whole call dereferences at most `dmax + 1` offsets,
i.e. the loop body runs at most `dmax` times (the budget strictly decreases
each iteration and the terminator also stops it). -/
theorem strlastchar_s_cost_bounded (dest : Option (List Byte)) (dmax : Nat)
    (lastp_null : Bool) (destbos : Option Nat) :
    (strlastchar_s_reads dest dmax lastp_null destbos).length ≤ dmax + 1 := by
  cases lastp_null with
  | true => simp [strlastchar_s_reads]
  | false =>
    cases dest with
    | none => simp [strlastchar_s_reads]
    | some d =>
      by_cases h0 : dmax = 0
      · simp [strlastchar_s_reads, h0]
      · by_cases hsz : sizeOk dmax destbos = true
        · have hv : strlastchar_s_reads (some d) dmax false destbos =
              scanReads d 0 dmax := by
            simp [strlastchar_s_reads, h0, hsz]
          rw [hv]
          exact scanReads_length d dmax 0
        · have hv : strlastchar_s_reads (some d) dmax false destbos = [] := by
            simp [strlastchar_s_reads, h0, hsz]
          rw [hv]
          simp

/-- Claim C9: a valid call searching for the terminator value itself always
reports NotFound with a NULL slot: the loop exits at a terminator before
the match test can compare it. -/
theorem strlastchar_s_terminator_unfindable (d : List Byte) (dmax : Nat)
    (slot0 : Option Nat) (destbos : Option Nat)
    (h0 : dmax ≠ 0) (hsz : sizeOk dmax destbos = true) :
    strlastchar_s (some d) dmax 0 false slot0 destbos = (errno_t.ESNOTFND, none) := by
  rw [strlastchar_s_valid d dmax 0 slot0 destbos h0 hsz]
  exact scanResult_notfound d dmax 0 (fun k _ hr => hr k (Nat.le_refl k))

/-- Claim C9, witness: searching `"aaaaaa"` for the byte 0 with `dmax = 6`
reports NotFound with a NULL slot. -/
theorem strlastchar_s_terminator_unfindable_witness :
    strlastchar_s (some aaaaaa) 6 0 false (some 4) none = (errno_t.ESNOTFND, none) :=
  strlastchar_s_terminator_unfindable aaaaaa 6 (some 4) none (by decide) (by decide)

/-- Claim C10: a null output slot and a null buffer produce the same status
code ESNULLP; the two null-pointer failures are not distinguishable by
return value. -/
theorem strlastchar_s_null_codes_equal (dest : Option (List Byte)) (dmax : Nat)
    (c : Byte) (slot0 : Option Nat) (destbos : Option Nat) :
    (strlastchar_s dest dmax c true slot0 destbos).1 = errno_t.ESNULLP ∧
    (strlastchar_s none dmax c false slot0 destbos).1 = errno_t.ESNULLP ∧
    (strlastchar_s dest dmax c true slot0 destbos).1 =
      (strlastchar_s none dmax c false slot0 destbos).1 :=
  ⟨rfl, rfl, rfl⟩

end Safeclib
